import Mathlib

/-!
Verification of the training/evaluation core of the OpenNN repository
(`opennn_pytorch/algo/traintest.py`, `opennn/metrics/accuracy.py`).

The Python code is shallowly embedded: scalar losses and metric values are
rationals, per-batch values produced by the external model/loss/metric
collaborators are inputs to the embedded loop, and fallible operations
(integer parsing of directory entries, scalar division, the terminal
`os.rename` of `best.pt`) return `Except`.
-/

namespace OpenNN

/-- Failure modes of the embedded pipeline: `invalidState` models the
exception raised when a directory entry does not parse as an integer
(`int(...)` in `list(map(int, os.listdir(...)))`), `divByZero` models
Python's ZeroDivisionError from `x /= len(dataloader)`, `fileNotFound`
models the FileNotFoundError of the terminal `os.rename` when `best.pt`
was never written. -/
inductive Err where
  | invalidState
  | divByZero
  | fileNotFound
deriving Repr, DecidableEq

/-- One minibatch as seen by the loop: the scalar value `loss.item()` and
the scalar value `metric.calc(preds, labels)` for each registered metric,
in registration order.  These are produced by the external model / loss /
metric collaborators, so the embedding takes them as inputs. -/
structure BatchData where
  loss : ℚ
  metricVals : List ℚ
deriving Repr, DecidableEq

/-- The data one epoch of `train` consumes: the train dataloader's batches
and the valid dataloader's batches. -/
structure EpochData where
  trainBatches : List BatchData
  validBatches : List BatchData
deriving Repr, DecidableEq

/-- One line appended to `trainval.log`:
`epoch: {epoch+1}/{epochs} train loss: ... valid loss: ...` followed by the
per-metric train averages and valid averages. -/
structure LogLine where
  epoch : ℕ
  epochsTotal : ℕ
  trainLoss : ℚ
  validLoss : ℚ
  trainMetrics : List ℚ
  validMetrics : List ℚ
deriving Repr, DecidableEq, Inhabited

/-- The mutable state of the `train` loop: `best_loss`, `best_epoch`, the
`plan_{epoch}_{valid_loss:.2f}.pt` files written so far, the content tag of
the single `best.pt` file (`none` while that file does not exist), and the
log lines appended so far. -/
structure TrainState where
  bestLoss : ℚ
  bestEpoch : ℤ
  plans : List (ℕ × ℤ)
  best : Option (ℤ × ℚ)
  logLines : List LogLine
deriving Repr, DecidableEq

/-- The integer encoded by Python's `'{:.2f}'.format(q)`: the number of
hundredths after rounding (ties away from the representable midpoint do not
occur for the values in this development). -/
def fmt2 (q : ℚ) : ℤ := round (100 * q)

/-- Python scalar division `a / b` with an integer divisor: raises
ZeroDivisionError when `b = 0`. -/
def pyDiv (a : ℚ) (b : ℕ) : Except Err ℚ :=
  if b = 0 then .error .divByZero else .ok (a / (b : ℚ))

/-- `np.array(xs) / n`: numpy elementwise division.  Division by zero does
not raise in numpy; in the source the run always aborts at the subsequent
scalar loss division before such values can be observed. -/
def npDivList (xs : List ℚ) (n : ℕ) : List ℚ := xs.map (fun x => x / (n : ℚ))

/-- The accumulation phase of one pass over a dataloader: starting from
`train_loss = 0.0` and `train_mvct = [0.0] * len(metrics)`, add each
batch's loss and each batch's per-metric values positionally. -/
def accumulate (m : ℕ) (batches : List BatchData) : ℚ × List ℚ :=
  batches.foldl
    (fun acc b => (acc.1 + b.loss, List.zipWith (· + ·) acc.2 b.metricVals))
    (0, List.replicate m (0 : ℚ))

/-- One iteration of the epoch loop of `train`: accumulate over the train
and valid dataloaders, average (numpy metric division first, then the two
scalar loss divisions, which raise on an empty dataloader), write the
periodic `plan_{epoch}_{valid_loss:.2f}.pt` checkpoint when
`epoch % save_every == 0 or epoch == epochs - 1`, overwrite `best.pt` and
update `best_loss`/`best_epoch` when `valid_loss < best_loss`, then append
the epoch's log line. -/
def epochStep (m k E : ℕ) (st : TrainState) (e : ℕ) (d : EpochData) :
    Except Err TrainState :=
  let tAcc := accumulate m d.trainBatches
  let vAcc := accumulate m d.validBatches
  let tm := npDivList tAcc.2 d.trainBatches.length
  let vm := npDivList vAcc.2 d.validBatches.length
  match pyDiv tAcc.1 d.trainBatches.length with
  | .error err => .error err
  | .ok tl =>
    match pyDiv vAcc.1 d.validBatches.length with
    | .error err => .error err
    | .ok vl =>
      let st1 := if e % k = 0 ∨ e = E - 1 then
          { st with plans := st.plans ++ [(e, fmt2 vl)] } else st
      let st2 := if vl < st1.bestLoss then
          { st1 with bestLoss := vl, bestEpoch := (e : ℤ),
                     best := some ((e : ℤ), vl) }
        else st1
      .ok { st2 with logLines := st2.logLines ++ [⟨e + 1, E, tl, vl, tm, vm⟩] }

/-- The state of `train` just before the first epoch:
`best_loss = 99999999.0`, `best_epoch = 0`, no checkpoint files, no log
lines. -/
def initState : TrainState := ⟨99999999, 0, [], none, []⟩

/-- The epoch loop of `train` (`for epoch in tqdm(range(epochs))`),
threading the state from epoch `e` onward; any exception aborts the run. -/
def trainLoopAux (m k E : ℕ) (st : TrainState) (e : ℕ) :
    List EpochData → Except Err TrainState
  | [] => .ok st
  | d :: ds =>
    match epochStep m k E st e d with
    | .error err => .error err
    | .ok st' => trainLoopAux m k E st' (e + 1) ds

/-- The observable outcome of a completed `train` run: the periodic
checkpoint filenames `plan_{epoch}_{loss:.2f}.pt`, the final
`best_{best_epoch}_{best_loss:.2f}.pt` produced by `os.rename`, and the log
lines. -/
structure TrainResult where
  plans : List (ℕ × ℤ)
  bestEpoch : ℤ
  bestLossFmt : ℤ
  logLines : List LogLine
deriving Repr, DecidableEq

/-- The `train` function after run-directory allocation: run the epoch
loop from the initial state, then rename `best.pt` to
`best_{best_epoch}_{best_loss:.2f}.pt`; the rename raises
FileNotFoundError when `best.pt` was never written. -/
def train (m k : ℕ) (ds : List EpochData) : Except Err TrainResult :=
  match trainLoopAux m k ds.length initState 0 ds with
  | .error err => .error err
  | .ok st =>
    match st.best with
    | none => .error .fileNotFound
    | some _ => .ok ⟨st.plans, st.bestEpoch, fmt2 st.bestLoss, st.logLines⟩

/-- The observable outcome of a completed `test` run: the averaged loss and
the averaged metrics written to `test.log`. -/
structure TestResult where
  testLoss : ℚ
  testMetrics : List ℚ
deriving Repr, DecidableEq

/-- The `test` function after run-directory allocation: one accumulation
pass over the test dataloader, numpy metric division, then the scalar loss
division (which raises on an empty dataloader), then the summary line. -/
def test (m : ℕ) (batches : List BatchData) : Except Err TestResult :=
  let acc := accumulate m batches
  let ms := npDivList acc.2 batches.length
  match pyDiv acc.1 batches.length with
  | .error err => .error err
  | .ok l => .ok ⟨l, ms⟩

/-! Specification-side observables of the loop, used to state the claims:
per-epoch averages written from a single epoch's data. -/

/-- The averaged train loss of one epoch: sum of per-batch losses divided
by the number of batches. -/
def epochTrainAvg (d : EpochData) : ℚ :=
  (d.trainBatches.map BatchData.loss).sum / (d.trainBatches.length : ℚ)

/-- The averaged valid loss of one epoch. -/
def epochValidAvg (d : EpochData) : ℚ :=
  (d.validBatches.map BatchData.loss).sum / (d.validBatches.length : ℚ)

/-- Per-metric averages of one pass: for each metric index, the sum of that
metric's per-batch values divided by the number of batches. -/
def metricAvgs (m : ℕ) (bs : List BatchData) : List ℚ :=
  (List.range m).map
    (fun i => (bs.map (fun b => b.metricVals.getD i 0)).sum / (bs.length : ℚ))

/-- The log line epoch `e` should produce, computed from that epoch's data
alone. -/
def logSpec (m E e : ℕ) (d : EpochData) : LogLine :=
  ⟨e + 1, E, epochTrainAvg d, epochValidAvg d,
   metricAvgs m d.trainBatches, metricAvgs m d.validBatches⟩

/-- The log lines produced by the epochs from index `e` on. -/
def logsSpec (m E : ℕ) : ℕ → List EpochData → List LogLine
  | _, [] => []
  | e, d :: ds => logSpec m E e d :: logsSpec m E (e + 1) ds

/-- The periodic checkpoints written by the epochs from index `e` on. -/
def planSpec (k E : ℕ) : ℕ → List EpochData → List (ℕ × ℤ)
  | _, [] => []
  | e, d :: ds =>
    (if e % k = 0 ∨ e = E - 1 then [(e, fmt2 (epochValidAvg d))] else []) ++
      planSpec k E (e + 1) ds

/-- An epoch's data is well formed for `m` registered metrics when both
dataloaders yield at least one batch and every batch carries one value per
registered metric. -/
def WellFormedEpoch (m : ℕ) (d : EpochData) : Prop :=
  d.trainBatches ≠ [] ∧ d.validBatches ≠ [] ∧
    (∀ b ∈ d.trainBatches, b.metricVals.length = m) ∧
    (∀ b ∈ d.validBatches, b.metricVals.length = m)

instance (m : ℕ) (d : EpochData) : Decidable (WellFormedEpoch m d) := by
  unfold WellFormedEpoch; infer_instance

/-- The number of "best" checkpoint files present in the run's checkpoint
directory during the loop (the code only ever writes the single fixed name
`best.pt`, so this is `0` or `1`). -/
def bestFileCount (st : TrainState) : ℕ := if st.best.isSome then 1 else 0

/-! The run-directory allocator, the shared prologue of `train` and `test`:
`folder = list(map(int, os.listdir(parent)))`, then
`folder = max(folder) + 1 if folder != [] else 0`, then
`os.mkdir(parent/folder)`. -/

/-- An immediate child of the checkpoints/logs parent directory: either an
integer-named run directory or an entry whose name `int(...)` rejects. -/
inductive EntryName where
  | num (n : ℤ)
  | other (s : String)
deriving Repr, DecidableEq

/-- Python's `int(name)` on a directory entry: succeeds exactly on
integer-named entries, raises (here `none`) otherwise. -/
def pyInt : EntryName → Option ℤ
  | .num n => some n
  | .other _ => none

/-- `list(map(int, os.listdir(parent)))`: parse every entry, raising at the
first non-integer name. -/
def parseEntries : List EntryName → Option (List ℤ)
  | [] => some []
  | e :: es =>
    match pyInt e with
    | none => none
    | some n =>
      match parseEntries es with
      | none => none
      | some ns => some (n :: ns)

/-- `max(folder) + 1 if folder != [] else 0`. -/
def nextRunId : List ℤ → ℤ
  | [] => 0
  | x :: xs => xs.foldl max x + 1

/-- The run-directory allocator: parse the listing, compute the next run
id, create the new subdirectory (returned as the updated listing).  A
non-integer entry raises before any directory is created. -/
def allocRunDir (entries : List EntryName) :
    Except Err (ℤ × List EntryName) :=
  match parseEntries entries with
  | none => .error .invalidState
  | some ids =>
    let nid := nextRunId ids
    .ok (nid, entries ++ [.num nid])

/-- `train` including its prologue: allocate a checkpoints run directory
and a logs run directory, then run the epoch loop.  Exceptions from the
allocator propagate uncaught. -/
def trainFull (ckptEntries logEntries : List EntryName) (m k : ℕ)
    (ds : List EpochData) : Except Err TrainResult :=
  match allocRunDir ckptEntries with
  | .error err => .error err
  | .ok _ =>
    match allocRunDir logEntries with
    | .error err => .error err
    | .ok _ => train m k ds

/-- `test` including its prologue: allocate a logs run directory, then run
the evaluation pass. -/
def testFull (logEntries : List EntryName) (m : ℕ)
    (batches : List BatchData) : Except Err TestResult :=
  match allocRunDir logEntries with
  | .error err => .error err
  | .ok _ => test m batches

/-! The `accuracy` metric (`opennn/metrics/accuracy.py`).  Tensors of rank
one and two (the ranks the pipeline produces) are embedded explicitly. -/

/-- A rank-1 or rank-2 tensor of scalars. -/
inductive Tensor where
  | vec (xs : List ℚ)
  | mat (rows : List (List ℚ))
deriving Repr, DecidableEq

/-- Scan for the arg-max: `i` is the index of the next element, `bi`/`bv`
the best index and value so far; a later element replaces the best only
when strictly greater, so the first maximal index wins. -/
def argmaxAux (i bi : ℕ) (bv : ℚ) : List ℚ → ℕ
  | [] => bi
  | x :: xs => if bv < x then argmaxAux (i + 1) i x xs else argmaxAux (i + 1) bi bv xs

/-- `t.argmax()` over one row: the index of the first maximal element. -/
def argmaxIdx : List ℚ → ℕ
  | [] => 0
  | x :: xs => argmaxAux 1 0 x xs

/-- `(preds == labels).sum()` for two same-length rank-1 tensors: the
number of positions with equal entries. -/
def countEq (xs ys : List ℚ) : ℕ :=
  (List.zip xs ys).countP (fun p => p.1 == p.2)

/-- `np` in `accuracy.calc`: the product of all label-tensor dimension
sizes (for a well-formed matrix the column count is the first row's). -/
def tensorNumel : Tensor → ℕ
  | .vec xs => xs.length
  | .mat rows => rows.length * (rows.headD []).length

/-- `accuracy.calc(preds, labels)`.  Branches as in the source: with equal
ranks and differing class-axis sizes, reduce predictions by arg-max and
re-expand to a single column; with predictions one rank above labels,
reduce predictions by arg-max; with rank-2 labels, reduce both by arg-max;
finally divide the number of elementwise-equal entries by the product of
the label dimensions.  `none` models the exceptions the source hits on
rank-1/rank-1 input (`shapes[1]` IndexError), on `argmax(dim=1)` of a
rank-1 tensor, on an empty class axis, and on non-broadcastable
elementwise comparison (size-1 broadcasting is not modelled). -/
def pyAccuracyCalc (preds labels : Tensor) : Option ℚ :=
  match preds, labels with
  | .vec _, .vec _ => none
  | .vec _, .mat _ => none
  | .mat p, .vec l =>
    if p.any (fun r => r.isEmpty) then none
    else if p.length = l.length then
      some ((countEq (p.map (fun r => ((argmaxIdx r : ℤ) : ℚ))) l : ℚ) /
        (tensorNumel (.vec l) : ℚ))
    else none
  | .mat p, .mat l =>
    let cp := (p.headD []).length
    let cl := (l.headD []).length
    if p.any (fun r => r.isEmpty) ∨ l.any (fun r => r.isEmpty) then none
    else
      let p1 := if cp ≠ cl then p.map (fun r => [((argmaxIdx r : ℤ) : ℚ)]) else p
      let pv := p1.map (fun r => ((argmaxIdx r : ℤ) : ℚ))
      let lv := l.map (fun r => ((argmaxIdx r : ℤ) : ℚ))
      if p.length = l.length then
        some ((countEq pv lv : ℚ) / (tensorNumel (.mat l) : ℚ))
      else none

/-! Concrete runs used by the end-to-end scenario and the witnesses. -/

/-- The spec's end-to-end scenario: 3 epochs with validation losses
`[0.5, 0.3, 0.4]`, one train batch of loss 0 and one valid batch per
epoch, no registered metrics. -/
def dsScenario : List EpochData :=
  [⟨[⟨0, []⟩], [⟨1/2, []⟩]⟩, ⟨[⟨0, []⟩], [⟨3/10, []⟩]⟩, ⟨[⟨0, []⟩], [⟨2/5, []⟩]⟩]

/-- The outcome of `train 0 2 dsScenario`: periodic checkpoints for epochs
0 and 2, final best checkpoint `best_1_0.30.pt`. -/
def scenarioResult : TrainResult :=
  ⟨[(0, 50), (2, 40)], 1, 30,
   [⟨1, 3, 0, 1/2, [], []⟩, ⟨2, 3, 0, 3/10, [], []⟩, ⟨3, 3, 0, 2/5, [], []⟩]⟩

/-- A one-epoch run with one registered metric: two train batches with
losses 1, 3 and metric values 2, 4; one valid batch with loss 5 and metric
value 6. -/
def dsOneMetric : List EpochData :=
  [⟨[⟨1, [2]⟩, ⟨3, [4]⟩], [⟨5, [6]⟩]⟩]

/-- The outcome of `train 1 1 dsOneMetric`. -/
def oneMetricResult : TrainResult :=
  ⟨[(0, 500)], 0, 500, [⟨1, 1, 2, 5, [3], [6]⟩]⟩

/-- A single epoch whose validation loss is 1/2: one train batch of loss 0,
one valid batch of loss 1/2, no registered metrics. -/
def dEpoch0 : EpochData := ⟨[⟨0, []⟩], [⟨1/2, []⟩]⟩

/-- The state after running `dEpoch0` as epoch 0 of a 3-epoch run with
`save_every = 2`, starting from the initial state. -/
def stEpoch0 : TrainState :=
  ⟨1/2, 0, [(0, 50)], some (0, 1/2), [⟨1, 3, 0, 1/2, [], []⟩]⟩

/-- A single epoch whose validation loss is exactly 99999999.0, i.e. not
strictly below the initial `best_loss`. -/
def dNoImprove : EpochData := ⟨[⟨0, []⟩], [⟨99999999, []⟩]⟩

/-- The state after running `dNoImprove` as epoch 0 of a 1-epoch run with
`save_every = 1`, starting from the initial state: a periodic checkpoint
is written, but `best.pt` still does not exist. -/
def stNoImprove : TrainState :=
  ⟨99999999, 0, [(0, 9999999900)], none, [⟨1, 1, 0, 99999999, [], []⟩]⟩

/-! Helper lemmas about the accumulation phase. -/

theorem accumulate_fold_fst (bs : List BatchData) (a : ℚ) (v : List ℚ) :
    (bs.foldl
      (fun acc b => (acc.1 + b.loss, List.zipWith (· + ·) acc.2 b.metricVals))
      (a, v)).1 = a + (bs.map BatchData.loss).sum := by
  induction bs generalizing a v with
  | nil => simp
  | cons b bs ih => simp [ih, add_assoc]

theorem accumulate_fst (m : ℕ) (bs : List BatchData) :
    (accumulate m bs).1 = (bs.map BatchData.loss).sum := by
  simpa [accumulate] using accumulate_fold_fst bs 0 (List.replicate m 0)

theorem zipWith_add_getD (xs ys : List ℚ) (i : ℕ) (h : xs.length = ys.length)
    (hi : i < xs.length) :
    (List.zipWith (· + ·) xs ys).getD i 0 = xs.getD i 0 + ys.getD i 0 := by
  induction xs generalizing ys i with
  | nil => simp at hi
  | cons x xs ih =>
    cases ys with
    | nil => simp at h
    | cons y ys =>
      cases i with
      | zero => simp
      | succ i =>
        simp only [List.getD_cons_succ, List.zipWith_cons_cons]
        exact ih ys i (by simpa using h) (by simpa using hi)

theorem accumulate_fold_snd (bs : List BatchData) (a : ℚ) (v : List ℚ)
    (h : ∀ b ∈ bs, b.metricVals.length = v.length) :
    (bs.foldl
      (fun acc b => (acc.1 + b.loss, List.zipWith (· + ·) acc.2 b.metricVals))
      (a, v)).2.length = v.length ∧
    ∀ i, i < v.length →
      (bs.foldl
        (fun acc b => (acc.1 + b.loss, List.zipWith (· + ·) acc.2 b.metricVals))
        (a, v)).2.getD i 0
        = v.getD i 0 + (bs.map (fun b => b.metricVals.getD i 0)).sum := by
  induction bs generalizing a v with
  | nil => simp
  | cons b bs ih =>
    have hb : b.metricVals.length = v.length := h b (by simp)
    have hlen : (List.zipWith (· + ·) v b.metricVals).length = v.length := by
      simp [List.length_zipWith, hb]
    have h' : ∀ b' ∈ bs, b'.metricVals.length =
        (List.zipWith (· + ·) v b.metricVals).length := by
      intro b' hb'
      rw [hlen]
      exact h b' (by simp [hb'])
    obtain ⟨ih1, ih2⟩ := ih (a + b.loss) (List.zipWith (· + ·) v b.metricVals) h'
    constructor
    · simpa [hlen] using ih1
    · intro i hi
      have := ih2 i (by rwa [hlen])
      simp only [List.foldl_cons] at this ⊢
      rw [this, zipWith_add_getD v b.metricVals i hb.symm hi, add_assoc]
      simp

theorem getD_replicate_zero (m i : ℕ) : (List.replicate m (0 : ℚ)).getD i 0 = 0 := by
  induction m generalizing i with
  | zero => simp
  | succ m ih =>
    cases i with
    | zero => simp [List.replicate]
    | succ i => simp [List.replicate, ih i]

theorem accumulate_snd_length (m : ℕ) (bs : List BatchData)
    (h : ∀ b ∈ bs, b.metricVals.length = m) :
    (accumulate m bs).2.length = m := by
  have := (accumulate_fold_snd bs 0 (List.replicate m 0) (by simpa using h)).1
  simpa [accumulate] using this

theorem accumulate_snd_getD (m : ℕ) (bs : List BatchData) (i : ℕ) (hi : i < m)
    (h : ∀ b ∈ bs, b.metricVals.length = m) :
    (accumulate m bs).2.getD i 0
      = (bs.map (fun b => b.metricVals.getD i 0)).sum := by
  have := (accumulate_fold_snd bs 0 (List.replicate m 0) (by simpa using h)).2 i
    (by simpa using hi)
  simpa [accumulate, getD_replicate_zero] using this

theorem accumulate_metricAvgs (m : ℕ) (bs : List BatchData)
    (h : ∀ b ∈ bs, b.metricVals.length = m) :
    npDivList (accumulate m bs).2 bs.length = metricAvgs m bs := by
  have hl1 : (npDivList (accumulate m bs).2 bs.length).length = m := by
    simp [npDivList, accumulate_snd_length m bs h]
  have hl2 : (metricAvgs m bs).length = m := by simp [metricAvgs]
  apply List.ext_getElem (by rw [hl1, hl2])
  intro i h1 h2
  have him : i < m := by rwa [hl1] at h1
  have hacc : i < (accumulate m bs).2.length := by
    rwa [accumulate_snd_length m bs h]
  simp only [npDivList, metricAvgs, List.getElem_map, List.getElem_range]
  rw [← List.getD_eq_getElem (accumulate m bs).2 0 hacc,
    accumulate_snd_getD m bs i him h]

/-! Helper lemmas about a single epoch step. -/

theorem epochStep_train_empty (m k E : ℕ) (st : TrainState) (e : ℕ)
    (d : EpochData) (h : d.trainBatches = []) :
    epochStep m k E st e d = .error .divByZero := by
  simp [epochStep, pyDiv, h]

theorem epochStep_valid_empty (m k E : ℕ) (st : TrainState) (e : ℕ)
    (d : EpochData) (ht : d.trainBatches ≠ []) (hv : d.validBatches = []) :
    epochStep m k E st e d = .error .divByZero := by
  have ht' : d.trainBatches.length ≠ 0 := by
    simpa using fun hh => ht (List.length_eq_zero.mp hh)
  simp [epochStep, pyDiv, ht', hv]

theorem epochStep_isOk (m k E : ℕ) (st : TrainState) (e : ℕ) (d : EpochData)
    (ht : d.trainBatches ≠ []) (hv : d.validBatches ≠ []) :
    ∃ st', epochStep m k E st e d = .ok st' := by
  have ht' : d.trainBatches.length ≠ 0 := fun hh => ht (List.length_eq_zero.mp hh)
  have hv' : d.validBatches.length ≠ 0 := fun hh => hv (List.length_eq_zero.mp hh)
  cases hres : epochStep m k E st e d with
  | ok st' => exact ⟨st', rfl⟩
  | error err => simp [epochStep, pyDiv, ht', hv'] at hres

theorem epochStep_inv {m k E : ℕ} {st : TrainState} {e : ℕ} {d : EpochData}
    {st' : TrainState} (hstep : epochStep m k E st e d = .ok st') :
    d.trainBatches ≠ [] ∧ d.validBatches ≠ [] ∧
    st'.plans = st.plans ++
      (if e % k = 0 ∨ e = E - 1 then [(e, fmt2 (epochValidAvg d))] else []) ∧
    st'.bestLoss =
      (if epochValidAvg d < st.bestLoss then epochValidAvg d else st.bestLoss) ∧
    (if epochValidAvg d < st.bestLoss
      then st'.bestEpoch = (e : ℤ) ∧ st'.best = some ((e : ℤ), epochValidAvg d)
      else st'.bestEpoch = st.bestEpoch ∧ st'.best = st.best) := by
  by_cases ht : d.trainBatches.length = 0
  · simp [epochStep, pyDiv, ht] at hstep
  by_cases hv : d.validBatches.length = 0
  · simp [epochStep, pyDiv, ht, hv] at hstep
  have ht' : d.trainBatches ≠ [] := fun hh => ht (by simp [hh])
  have hv' : d.validBatches ≠ [] := fun hh => hv (by simp [hh])
  have havg : (accumulate m d.validBatches).1 / (d.validBatches.length : ℚ)
      = epochValidAvg d := by
    rw [epochValidAvg, accumulate_fst]
  simp only [epochStep, pyDiv, ht, hv, if_neg, if_false, ite_false] at hstep
  rw [havg] at hstep
  refine ⟨ht', hv', ?_, ?_, ?_⟩ <;>
    · obtain rfl := (Except.ok.injEq _ _).mp hstep
      by_cases hP : e % k = 0 ∨ e = E - 1 <;>
        by_cases hI : epochValidAvg d < st.bestLoss <;>
          simp [hP, hI]

theorem epochStep_logs {m k E : ℕ} {st : TrainState} {e : ℕ} {d : EpochData}
    {st' : TrainState} (h : WellFormedEpoch m d)
    (hstep : epochStep m k E st e d = .ok st') :
    st'.logLines = st.logLines ++ [logSpec m E e d] := by
  obtain ⟨h1, h2, h3, h4⟩ := h
  have ht : d.trainBatches.length ≠ 0 := fun hh => h1 (List.length_eq_zero.mp hh)
  have hv : d.validBatches.length ≠ 0 := fun hh => h2 (List.length_eq_zero.mp hh)
  have havgT : (accumulate m d.trainBatches).1 / (d.trainBatches.length : ℚ)
      = epochTrainAvg d := by rw [epochTrainAvg, accumulate_fst]
  have havgV : (accumulate m d.validBatches).1 / (d.validBatches.length : ℚ)
      = epochValidAvg d := by rw [epochValidAvg, accumulate_fst]
  simp only [epochStep, pyDiv, ht, hv, if_neg, if_false, ite_false] at hstep
  rw [havgT, havgV, accumulate_metricAvgs m _ h3, accumulate_metricAvgs m _ h4]
    at hstep
  obtain rfl := (Except.ok.injEq _ _).mp hstep
  by_cases hP : e % k = 0 ∨ e = E - 1 <;>
    by_cases hI : epochValidAvg d < st.bestLoss <;>
      simp [hP, hI, logSpec]

/-! Helper lemmas about iterated minima. -/

theorem foldr_min_le_init (l : List ℚ) (b : ℚ) : l.foldr min b ≤ b := by
  induction l with
  | nil => exact le_refl b
  | cons x l ih => exact le_trans (min_le_right x _) ih

theorem foldr_min_le_mem {l : List ℚ} {x : ℚ} (h : x ∈ l) (b : ℚ) :
    l.foldr min b ≤ x := by
  induction l with
  | nil => simp at h
  | cons y l ih =>
    rcases List.mem_cons.mp h with h1 | h2
    · subst h1
      exact min_le_left x _
    · exact le_trans (min_le_right y _) (ih h2)

theorem foldr_min_of_forall_le {l : List ℚ} {b : ℚ} (h : ∀ x ∈ l, b ≤ x) :
    l.foldr min b = b := by
  induction l with
  | nil => rfl
  | cons x l ih =>
    rw [List.foldr_cons, ih (fun y hy => h y (by simp [hy])),
      min_eq_right (h x (by simp))]

theorem ite_lt_min (a b : ℚ) : (if a < b then a else b) = min a b := by
  by_cases h : a < b
  · simp [h, min_eq_left h.le]
  · simp [h, min_eq_right (not_lt.mp h)]

theorem foldr_min_min (l : List ℚ) (a b : ℚ) :
    l.foldr min (min a b) = min a (l.foldr min b) := by
  induction l with
  | nil => rfl
  | cons x l ih => simp [ih, min_left_comm]

/-- The loop invariant of `train`: starting the epoch loop at epoch `e` in
state `st` on well-formed epochs, the loop completes; the periodic
checkpoints and log lines of these epochs are appended; `best_loss` ends as
the minimum of the incoming `best_loss` and all the epochs' validation
averages; and either some epoch strictly improved on the incoming
`best_loss` — then `best_epoch`/`best.pt` record the first epoch attaining
the final minimum — or none did and the best-tracking fields are
untouched. -/
theorem trainLoopAux_spec (m k E : ℕ) (ds : List EpochData) :
    ∀ (st : TrainState) (e : ℕ),
      (∀ d ∈ ds, WellFormedEpoch m d) →
      ∃ st', trainLoopAux m k E st e ds = .ok st' ∧
        st'.plans = st.plans ++ planSpec k E e ds ∧
        st'.logLines = st.logLines ++ logsSpec m E e ds ∧
        st'.bestLoss = (ds.map epochValidAvg).foldr min st.bestLoss ∧
        ((st'.bestLoss < st.bestLoss ∧ ∃ j, j < ds.length ∧
            (ds.map epochValidAvg).getD j 0 = st'.bestLoss ∧
            st'.bestEpoch = ((e + j : ℕ) : ℤ) ∧
            (∀ j', j' < j → st'.bestLoss < (ds.map epochValidAvg).getD j' 0) ∧
            st'.best = some (st'.bestEpoch, st'.bestLoss)) ∨
          (st'.bestLoss = st.bestLoss ∧ st'.bestEpoch = st.bestEpoch ∧
            st'.best = st.best)) := by
  induction ds with
  | nil =>
    intro st e _
    exact ⟨st, rfl, by simp [planSpec], by simp [logsSpec], by simp,
      Or.inr ⟨rfl, rfl, rfl⟩⟩
  | cons d ds ih =>
    intro st e h
    have hd : WellFormedEpoch m d := h d (by simp)
    have hrest : ∀ d' ∈ ds, WellFormedEpoch m d' := fun d' hd' => h d' (by simp [hd'])
    obtain ⟨stm, hstep⟩ := epochStep_isOk m k E st e d hd.1 hd.2.1
    obtain ⟨-, -, hplans1, hbl1, hbe1⟩ := epochStep_inv hstep
    have hlog1 := epochStep_logs hd hstep
    obtain ⟨st', hrun, hplans2, hlogs2, hbl2, hdisj2⟩ := ih stm (e + 1) hrest
    have hloop : trainLoopAux m k E st e (d :: ds) = .ok st' := by
      simp [trainLoopAux, hstep, hrun]
    refine ⟨st', hloop, ?_, ?_, ?_, ?_⟩
    · rw [hplans2, hplans1, planSpec, ← List.append_assoc]
    · rw [hlogs2, hlog1, logsSpec]
      simp
    · rw [hbl2, hbl1, ite_lt_min, List.map_cons, List.foldr_cons, foldr_min_min]
    · by_cases hI : epochValidAvg d < st.bestLoss
      · rw [if_pos hI] at hbl1 hbe1
        rcases hdisj2 with ⟨hlt2, j, hj, hgetd, hbe, hfirst, hbest⟩ |
          ⟨hbleq, hbeeq, hbesteq⟩
        · refine Or.inl ⟨lt_trans (hbl1 ▸ hlt2) hI, j + 1, by simpa using hj,
            ?_, ?_, ?_, hbest⟩
          · simpa using hgetd
          · rw [hbe]
            congr 1
            omega
          · intro j' hj'
            cases j' with
            | zero =>
              simp only [List.map_cons, List.getD_cons_zero]
              exact hbl1 ▸ hlt2
            | succ j'' =>
              simpa using hfirst j'' (by omega)
        · refine Or.inl ⟨hbleq ▸ hbl1 ▸ hI, 0, by simp, ?_, ?_, ?_, ?_⟩
          · simp [hbleq, hbl1]
          · simp [hbeeq, hbe1.1]
          · intro j' hj'
            omega
          · rw [hbesteq, hbe1.2, hbeeq, hbe1.1, hbleq, hbl1]
      · rw [if_neg hI] at hbl1 hbe1
        rcases hdisj2 with ⟨hlt2, j, hj, hgetd, hbe, hfirst, hbest⟩ |
          ⟨hbleq, hbeeq, hbesteq⟩
        · refine Or.inl ⟨hbl1 ▸ hlt2, j + 1, by simpa using hj, ?_, ?_, ?_, hbest⟩
          · simpa using hgetd
          · rw [hbe]
            congr 1
            omega
          · intro j' hj'
            cases j' with
            | zero =>
              simp only [List.map_cons, List.getD_cons_zero]
              exact lt_of_lt_of_le (hbl1 ▸ hlt2) (not_lt.mp hI)
            | succ j'' =>
              simpa using hfirst j'' (by omega)
        · exact Or.inr ⟨hbleq.trans hbl1, hbeeq.trans hbe1.1, hbesteq.trans hbe1.2⟩

theorem planSpec_mem (k E : ℕ) (ds : List EpochData) (e0 : ℕ) (p : ℕ × ℤ) :
    p ∈ planSpec k E e0 ds ↔
      ∃ j, j < ds.length ∧ p.1 = e0 + j ∧ (p.1 % k = 0 ∨ p.1 = E - 1) ∧
        p.2 = fmt2 (epochValidAvg (ds.getD j ⟨[], []⟩)) := by
  induction ds generalizing e0 with
  | nil => simp [planSpec]
  | cons d ds ih =>
    simp only [planSpec, List.mem_append]
    constructor
    · rintro (h1 | h2)
      · by_cases hc : e0 % k = 0 ∨ e0 = E - 1
        · rw [if_pos hc] at h1
          simp only [List.mem_singleton] at h1
          subst h1
          exact ⟨0, by simp, by simp, hc, by simp⟩
        · rw [if_neg hc] at h1
          simp at h1
      · obtain ⟨j, hj, h1, h2, h3⟩ := (ih (e0 + 1)).mp h2
        exact ⟨j + 1, by simpa using hj, by omega, h2, by simpa using h3⟩
    · rintro ⟨j, hj, h1, h2, h3⟩
      cases j with
      | zero =>
        left
        have hp1 : p.1 = e0 := by omega
        rw [if_pos (hp1 ▸ h2)]
        simp only [List.mem_singleton]
        have hp2 : p.2 = fmt2 (epochValidAvg d) := by simpa using h3
        exact Prod.ext hp1 hp2
      | succ j =>
        right
        exact (ih (e0 + 1)).mpr ⟨j, by simpa using hj, by omega, h2, by simpa using h3⟩

theorem logsSpec_length (m E : ℕ) (ds : List EpochData) :
    ∀ e0, (logsSpec m E e0 ds).length = ds.length := by
  induction ds with
  | nil => intro e0; rfl
  | cons d ds ih => intro e0; simp [logsSpec, ih]

theorem logsSpec_getD (m E : ℕ) (ds : List EpochData) :
    ∀ e0 i, i < ds.length →
      (logsSpec m E e0 ds).getD i default
        = logSpec m E (e0 + i) (ds.getD i ⟨[], []⟩) := by
  induction ds with
  | nil => intro e0 i hi; simp at hi
  | cons d ds ih =>
    intro e0 i hi
    cases i with
    | zero => simp [logsSpec]
    | succ i =>
      have := ih (e0 + 1) i (by simpa using hi)
      simp only [logsSpec, List.getD_cons_succ, this]
      congr 1
      omega

/-- Inversion of a successful `train` run: the loop completed, `best.pt`
existed at loop exit, and the result's fields are read off the final
state. -/
theorem train_inv {m k : ℕ} {ds : List EpochData} {res : TrainResult}
    (h : train m k ds = .ok res) :
    ∃ st', trainLoopAux m k ds.length initState 0 ds = .ok st' ∧
      st'.best.isSome = true ∧
      res = ⟨st'.plans, st'.bestEpoch, fmt2 st'.bestLoss, st'.logLines⟩ := by
  unfold train at h
  cases hrun : trainLoopAux m k ds.length initState 0 ds with
  | error err =>
    simp only [hrun] at h
    exact absurd h (by simp)
  | ok st' =>
    simp only [hrun] at h
    obtain hbest | ⟨b, hbest⟩ : st'.best = none ∨ ∃ b, st'.best = some b := by
      cases st'.best
      · exact Or.inl rfl
      · exact Or.inr ⟨_, rfl⟩
    · simp only [hbest] at h
      exact absurd h (by simp)
    · simp only [hbest, Except.ok.injEq] at h
      exact ⟨st', rfl, by simp [hbest], h.symm⟩

/-! Evaluations of the embedding on the concrete runs. -/

theorem scenario_wf : ∀ d ∈ dsScenario, WellFormedEpoch 0 d := by decide

theorem scenario_train_eq : train 0 2 dsScenario = .ok scenarioResult := by
  norm_num [train, trainLoopAux, epochStep, accumulate, pyDiv, npDivList,
    initState, fmt2, round_eq, dsScenario, scenarioResult]

theorem oneMetric_wf : ∀ d ∈ dsOneMetric, WellFormedEpoch 1 d := by decide

theorem oneMetric_train_eq : train 1 1 dsOneMetric = .ok oneMetricResult := by
  norm_num [train, trainLoopAux, epochStep, accumulate, pyDiv, npDivList,
    initState, fmt2, round_eq, dsOneMetric, oneMetricResult]

theorem stEpoch0_eq : epochStep 0 2 3 initState 0 dEpoch0 = .ok stEpoch0 := by
  norm_num [epochStep, accumulate, pyDiv, npDivList, initState, fmt2,
    round_eq, dEpoch0, stEpoch0]

theorem stNoImprove_eq :
    epochStep 0 1 1 initState 0 dNoImprove = .ok stNoImprove := by
  norm_num [epochStep, accumulate, pyDiv, npDivList, initState, fmt2,
    round_eq, dNoImprove, stNoImprove]

/-! Helper lemmas about `foldl max` for the run-directory allocator. -/

theorem le_foldl_max (xs : List ℤ) : ∀ a : ℤ, a ≤ xs.foldl max a := by
  induction xs with
  | nil => intro a; exact le_refl a
  | cons x xs ih => intro a; exact le_trans (le_max_left a x) (ih (max a x))

theorem mem_le_foldl_max (xs : List ℤ) :
    ∀ (a b : ℤ), b ∈ xs → b ≤ xs.foldl max a := by
  induction xs with
  | nil => intro a b h; simp at h
  | cons x xs ih =>
    intro a b h
    rcases List.mem_cons.mp h with rfl | h2
    · exact le_trans (le_max_right a b) (le_foldl_max xs (max a b))
    · exact ih (max a x) b h2

theorem foldl_max_le (xs : List ℤ) :
    ∀ (a c : ℤ), a ≤ c → (∀ x ∈ xs, x ≤ c) → xs.foldl max a ≤ c := by
  induction xs with
  | nil => intro a c h _; exact h
  | cons x xs ih =>
    intro a c ha hx
    exact ih (max a x) c (max_le ha (hx x (by simp)))
      (fun y hy => hx y (by simp [hy]))

theorem nextRunId_eq {ids : List ℤ} {k : ℤ} (hk : k ∈ ids)
    (hub : ∀ x ∈ ids, x ≤ k) : nextRunId ids = k + 1 := by
  cases ids with
  | nil => simp at hk
  | cons x xs =>
    rw [nextRunId]
    have h1 : xs.foldl max x ≤ k :=
      foldl_max_le xs x k (hub x (by simp)) (fun y hy => hub y (by simp [hy]))
    have h2 : k ≤ xs.foldl max x := by
      rcases List.mem_cons.mp hk with rfl | h2
      · exact le_foldl_max xs k
      · exact mem_le_foldl_max xs x k h2
    omega

theorem parseEntries_none {es : List EntryName} {s : String}
    (h : EntryName.other s ∈ es) : parseEntries es = none := by
  induction es with
  | nil => simp at h
  | cons e es ih =>
    rcases List.mem_cons.mp h with rfl | h2
    · rfl
    · simp only [parseEntries, ih h2]
      cases pyInt e <;> rfl

/-! Helper lemmas for the accuracy metric. -/

theorem getD_map_lt {α β : Type} (f : α → β) (p : List α) (i : ℕ) (d : α)
    (hd : β) (hi : i < p.length) : (p.map f).getD i hd = f (p.getD i d) := by
  rw [List.getD_eq_getElem _ _ (by simpa using hi),
    List.getD_eq_getElem _ _ hi, List.getElem_map]

theorem countEq_eq_range_countP (xs : List ℚ) : ∀ ys : List ℚ,
    xs.length = ys.length →
    countEq xs ys =
      (List.range ys.length).countP (fun i => xs.getD i 0 == ys.getD i 0) := by
  induction xs with
  | nil =>
    intro ys h
    cases ys with
    | nil => rfl
    | cons y ys => simp at h
  | cons x xs ih =>
    intro ys h
    cases ys with
    | nil => simp at h
    | cons y ys =>
      have hlen : xs.length = ys.length := by simpa using h
      have hstep := ih ys hlen
      simp only [countEq, List.zip_cons_cons, List.countP_cons,
        List.length_cons, List.range_succ_eq_map, List.countP_map] at hstep ⊢
      rw [hstep]
      congr 1

/-! Claim theorems. -/

/-- C6 counterexample: the claim says the loop state is initialized with
`best_epoch = -1`, but the code initializes `best_epoch = 0`. -/
theorem init_best_epoch_cex : initState.bestEpoch ≠ -1 := by decide

/-- C6 (amended): for every training run, the loop's state is initialized
exactly once, before the first epoch, with `best_loss = 99999999.0` and
`best_epoch = 0` and no `best.pt` file; accordingly, from the initial state
a first epoch writes `best.pt` exactly when its validation loss is
strictly below 99999999.0. -/
theorem init_state_spec :
    initState.bestLoss = 99999999 ∧ initState.bestEpoch = 0 ∧
    initState.best = none ∧
    ∀ m k E e d st', epochStep m k E initState e d = .ok st' →
      (st'.best.isSome = true ↔ epochValidAvg d < 99999999) := by
  refine ⟨rfl, rfl, rfl, ?_⟩
  intro m k E e d st' hstep
  obtain ⟨-, -, -, -, hbe⟩ := epochStep_inv hstep
  have hbl99 : initState.bestLoss = (99999999 : ℚ) := rfl
  by_cases hI : epochValidAvg d < initState.bestLoss
  · rw [if_pos hI] at hbe
    exact ⟨fun _ => hbl99 ▸ hI, fun _ => by simp [hbe.2]⟩
  · rw [if_neg hI] at hbe
    constructor
    · intro hs
      rw [hbe.2] at hs
      simp [initState] at hs
    · intro hlt
      exact absurd (hbl99 ▸ hlt) hI

/-- C6 witness: instantiating the amended claim on a concrete first epoch
of validation loss 1/2. -/
theorem init_state_spec_witness :
    stEpoch0.best.isSome = true ↔ epochValidAvg dEpoch0 < 99999999 :=
  init_state_spec.2.2.2 0 2 3 0 dEpoch0 stEpoch0 stEpoch0_eq

/-- C7 counterexample: after the first epoch step of a run whose first
validation loss is not strictly below 99999999.0, zero "best" checkpoint
files exist, contradicting "exactly one at every point". -/
theorem best_file_cex :
    (epochStep 0 1 1 initState 0 dNoImprove).map bestFileCount = .ok 0 := by
  norm_num [epochStep, accumulate, pyDiv, npDivList, initState, fmt2,
    round_eq, bestFileCount, Except.map, dNoImprove]

/-- C7 (amended): during training at most one "best" checkpoint file ever
exists (the code only writes the single fixed name `best.pt`); none exists
at the start of the run, and from the first epoch whose validation loss is
strictly below the current `best_loss` onward, exactly one exists after
every step of the epoch loop. -/
theorem best_file_invariant (m k E : ℕ) (st : TrainState) (e : ℕ)
    (d : EpochData) (st' : TrainState)
    (h : epochStep m k E st e d = .ok st') :
    initState.best = none ∧ bestFileCount st' ≤ 1 ∧
    (bestFileCount st = 0 → ¬ epochValidAvg d < st.bestLoss →
      bestFileCount st' = 0) ∧
    (bestFileCount st = 1 → bestFileCount st' = 1) ∧
    (epochValidAvg d < st.bestLoss → bestFileCount st' = 1) := by
  obtain ⟨-, -, -, -, hbe⟩ := epochStep_inv h
  refine ⟨rfl, ?_, ?_, ?_, ?_⟩
  · unfold bestFileCount
    split <;> omega
  · intro h0 hnI
    rw [if_neg hnI] at hbe
    simpa [bestFileCount, hbe.2] using h0
  · intro h1
    by_cases hI : epochValidAvg d < st.bestLoss
    · rw [if_pos hI] at hbe
      simp [bestFileCount, hbe.2]
    · rw [if_neg hI] at hbe
      simpa [bestFileCount, hbe.2] using h1
  · intro hI
    rw [if_pos hI] at hbe
    simp [bestFileCount, hbe.2]

/-- C7 witness: a concrete non-improving first epoch (validation loss
exactly 99999999.0) still leaves zero "best" checkpoint files, while a
concrete improving first epoch (validation loss 1/2) leaves exactly one. -/
theorem best_file_invariant_witness :
    bestFileCount stNoImprove = 0 ∧ bestFileCount stEpoch0 = 1 :=
  ⟨(best_file_invariant 0 1 1 initState 0 dNoImprove stNoImprove
      stNoImprove_eq).2.2.1 rfl
      (by norm_num [dNoImprove, epochValidAvg, initState]),
   (best_file_invariant 0 2 3 initState 0 dEpoch0 stEpoch0
      stEpoch0_eq).2.2.2.2
      (by norm_num [dEpoch0, epochValidAvg, initState])⟩

/-- C9: with `epochs = 0`, or when no epoch attains a validation loss
strictly below the initial `best_loss` value 99999999.0, `best.pt` is
never written and the terminal rename fails with a file-not-found error
instead of the run finishing cleanly. -/
theorem train_no_improvement_fails (m k : ℕ) (ds : List EpochData)
    (h : ds = [] ∨ ((∀ d ∈ ds, WellFormedEpoch m d) ∧
      ∀ d ∈ ds, (99999999 : ℚ) ≤ epochValidAvg d)) :
    (∃ st', trainLoopAux m k ds.length initState 0 ds = .ok st' ∧
      st'.best = none) ∧
    train m k ds = .error .fileNotFound := by
  rcases h with rfl | ⟨hwf, hge⟩
  · exact ⟨⟨initState, rfl, rfl⟩, rfl⟩
  · obtain ⟨st', hrun, -, -, hbl, hdisj⟩ :=
      trainLoopAux_spec m k ds.length ds initState 0 hwf
    have hbl99 : initState.bestLoss = (99999999 : ℚ) := rfl
    have hmin : (ds.map epochValidAvg).foldr min initState.bestLoss
        = initState.bestLoss := by
      apply foldr_min_of_forall_le
      intro x hx
      obtain ⟨d, hd, rfl⟩ := List.mem_map.mp hx
      exact hbl99 ▸ hge d hd
    rcases hdisj with ⟨hlt, -⟩ | ⟨-, -, hbest⟩
    · rw [hbl, hmin] at hlt
      exact absurd hlt (lt_irrefl _)
    · have hnone : st'.best = none := by rw [hbest]; rfl
      exact ⟨⟨st', hrun, hnone⟩, by simp [train, hrun, hnone]⟩

/-- C9 witness: a run with zero epochs fails with a file-not-found error at
the terminal rename. -/
theorem train_no_improvement_fails_witness :
    train 0 1 [] = .error .fileNotFound :=
  (train_no_improvement_fails 0 1 [] (Or.inl rfl)).2

/-- C10: a dataloader yielding zero batches makes the epoch-end averaging
divide the accumulated loss by zero: the epoch step of `train` (for an
empty train or an empty valid dataloader), hence `train` itself, and
likewise `test`, fail with a division-by-zero error instead of logging a
result. -/
theorem empty_dataloader_fails :
    (∀ m k E st e d, d.trainBatches = [] →
      epochStep m k E st e d = .error .divByZero) ∧
    (∀ m k E st e d, d.trainBatches ≠ [] → d.validBatches = [] →
      epochStep m k E st e d = .error .divByZero) ∧
    (∀ m k d rest, d.trainBatches = [] →
      train m k (d :: rest) = .error .divByZero) ∧
    (∀ m, test m [] = .error .divByZero) := by
  refine ⟨epochStep_train_empty, epochStep_valid_empty, ?_, ?_⟩
  · intro m k d rest h
    have hst : ∀ E, epochStep m k E initState 0 d = .error .divByZero :=
      fun E => epochStep_train_empty m k E initState 0 d h
    simp [train, trainLoopAux, hst]
  · intro m
    rfl

/-- C10 witness: a one-epoch run whose train dataloader is empty fails
with a division-by-zero error. -/
theorem empty_dataloader_fails_witness :
    train 0 1 [⟨[], []⟩] = .error .divByZero :=
  empty_dataloader_fails.2.2.1 0 1 ⟨[], []⟩ [] rfl

/-- C1: whenever an epoch's validation loss is strictly below the current
`best_loss`, the single `best.pt` file is overwritten and
`best_loss`/`best_epoch` are updated to that epoch; and at loop exit of a
completed run, the renamed best checkpoint encodes the epoch of minimum
validation loss (first occurrence) and that minimum loss under 2-decimal
formatting. -/
theorem best_checkpoint_tracking (m k : ℕ) (ds : List EpochData)
    (hwf : ∀ d ∈ ds, WellFormedEpoch m d) (res : TrainResult)
    (hok : train m k ds = .ok res) :
    (∀ st e d st', epochStep m k ds.length st e d = .ok st' →
      epochValidAvg d < st.bestLoss →
      st'.bestLoss = epochValidAvg d ∧ st'.bestEpoch = (e : ℤ) ∧
      st'.best = some ((e : ℤ), epochValidAvg d)) ∧
    ∃ j, j < ds.length ∧
      res.bestEpoch = (j : ℤ) ∧
      res.bestLossFmt = fmt2 ((ds.map epochValidAvg).getD j 0) ∧
      (∀ x ∈ ds.map epochValidAvg, (ds.map epochValidAvg).getD j 0 ≤ x) ∧
      (∀ j', j' < j →
        (ds.map epochValidAvg).getD j 0 < (ds.map epochValidAvg).getD j' 0) := by
  constructor
  · intro st e d st' hstep hlt
    obtain ⟨-, -, -, hbl, hbe⟩ := epochStep_inv hstep
    rw [if_pos hlt] at hbl hbe
    exact ⟨hbl, hbe.1, hbe.2⟩
  · obtain ⟨st', hrun, hsome, hres⟩ := train_inv hok
    obtain ⟨st'', hrun2, -, -, hbl, hdisj⟩ :=
      trainLoopAux_spec m k ds.length ds initState 0 hwf
    obtain rfl : st'' = st' := Except.ok.inj (hrun2.symm.trans hrun)
    rcases hdisj with ⟨-, j, hj, hgetd, hbe, hfirst, -⟩ | ⟨-, -, hbestnone⟩
    · refine ⟨j, hj, ?_, ?_, ?_, ?_⟩
      · rw [hres]
        simpa using hbe
      · rw [hres]
        simp only
        rw [hgetd]
      · intro x hx
        rw [hgetd, hbl]
        exact foldr_min_le_mem hx _
      · intro j' hj'
        rw [hgetd]
        exact hfirst j' hj'
    · rw [hbestnone] at hsome
      simp [initState] at hsome

/-- C1 witness: on the concrete scenario run, the final best checkpoint
encodes epoch 1 and the minimum validation loss 0.3. -/
theorem best_checkpoint_tracking_witness :
    ∃ j, j < dsScenario.length ∧
      scenarioResult.bestEpoch = (j : ℤ) ∧
      scenarioResult.bestLossFmt
        = fmt2 ((dsScenario.map epochValidAvg).getD j 0) ∧
      (∀ x ∈ dsScenario.map epochValidAvg,
        (dsScenario.map epochValidAvg).getD j 0 ≤ x) ∧
      (∀ j', j' < j →
        (dsScenario.map epochValidAvg).getD j 0
          < (dsScenario.map epochValidAvg).getD j' 0) :=
  (best_checkpoint_tracking 0 2 dsScenario scenario_wf scenarioResult
    scenario_train_eq).2

/-- C2: in a completed run with `save_every = k > 0` and `epochs = E`, a
periodic checkpoint exists for epoch `e` iff `e % k = 0` or `e = E - 1`;
in particular for `E = 3`, `k = 2` and validation losses
`[0.5, 0.3, 0.4]`, periodic checkpoints exist exactly for epochs 0 and 2
(encoding losses 0.50 and 0.40) and the final best checkpoint encodes
epoch 1, loss 0.30. -/
theorem periodic_checkpoints (m k : ℕ) (_hk : 0 < k) (ds : List EpochData)
    (hwf : ∀ d ∈ ds, WellFormedEpoch m d) (res : TrainResult)
    (hok : train m k ds = .ok res) :
    (∀ e, (∃ v, (e, v) ∈ res.plans) ↔
      (e < ds.length ∧ (e % k = 0 ∨ e = ds.length - 1))) ∧
    (train 0 2 dsScenario).map
        (fun r => (r.plans, r.bestEpoch, r.bestLossFmt))
      = .ok ([(0, 50), (2, 40)], 1, 30) := by
  constructor
  · obtain ⟨st', hrun, -, hres⟩ := train_inv hok
    obtain ⟨st'', hrun2, hplans, -, -, -⟩ :=
      trainLoopAux_spec m k ds.length ds initState 0 hwf
    obtain rfl : st'' = st' := Except.ok.inj (hrun2.symm.trans hrun)
    have hrp : res.plans = planSpec k ds.length 0 ds := by
      rw [hres]
      simpa [initState] using hplans
    intro e
    rw [hrp]
    constructor
    · rintro ⟨v, hv⟩
      obtain ⟨j, hj, he, hcond, -⟩ :=
        (planSpec_mem k ds.length ds 0 (e, v)).mp hv
      simp only at he hcond
      exact ⟨by omega, hcond⟩
    · rintro ⟨he, hcond⟩
      exact ⟨fmt2 (epochValidAvg (ds.getD e ⟨[], []⟩)),
        (planSpec_mem k ds.length ds 0 _).mpr ⟨e, he, by omega, hcond, rfl⟩⟩
  · rw [scenario_train_eq]
    rfl

/-- C2 witness: on the concrete scenario run, a periodic checkpoint exists
for epoch 2 (the last epoch, also divisible by `save_every = 2`). -/
theorem periodic_checkpoints_witness : ∃ v, (2, v) ∈ scenarioResult.plans :=
  ((periodic_checkpoints 0 2 (by norm_num) dsScenario scenario_wf
    scenarioResult scenario_train_eq).1 2).mpr ⟨by norm_num [dsScenario],
      Or.inl (by norm_num)⟩

/-- C4: in a completed run, the per-epoch value logged for the loss and for
each registered metric equals the sum of the per-batch values divided by
the batch count, computed from that epoch's data alone (the accumulators
are re-initialized to zero at the start of every epoch). -/
theorem metric_averaging (m k : ℕ) (ds : List EpochData)
    (hwf : ∀ d ∈ ds, WellFormedEpoch m d) (res : TrainResult)
    (hok : train m k ds = .ok res) :
    res.logLines.length = ds.length ∧
    ∀ i, i < ds.length →
      res.logLines.getD i default = logSpec m ds.length i (ds.getD i ⟨[], []⟩) := by
  obtain ⟨st', hrun, -, hres⟩ := train_inv hok
  obtain ⟨st'', hrun2, -, hlogs, -, -⟩ :=
    trainLoopAux_spec m k ds.length ds initState 0 hwf
  obtain rfl : st'' = st' := Except.ok.inj (hrun2.symm.trans hrun)
  have hlg : res.logLines = logsSpec m ds.length 0 ds := by
    rw [hres]
    simpa [initState] using hlogs
  constructor
  · rw [hlg, logsSpec_length]
  · intro i hi
    rw [hlg, logsSpec_getD m ds.length ds 0 i hi]
    simp

/-- C4 witness: on the one-metric run, the logged epoch line carries
train loss (1+3)/2 = 2 and train metric average (2+4)/2 = 3. -/
theorem metric_averaging_witness :
    oneMetricResult.logLines.getD 0 default
      = logSpec 1 1 0 (dsOneMetric.getD 0 ⟨[], []⟩) :=
  (metric_averaging 1 1 dsOneMetric oneMetric_wf oneMetricResult
    oneMetric_train_eq).2 0 (by norm_num [dsOneMetric])

/-- C3: for a parent directory whose integer-named children parse to a
list of ids containing `k` and bounded by `k` (in particular the children
`{0, 1, ..., k}`), the run-directory allocator creates and returns the new
subdirectory named `k + 1 = max(existing) + 1`; for an empty parent it
creates subdirectory `0`. -/
theorem alloc_next_id (es : List EntryName) (ids : List ℤ) (k : ℤ)
    (hp : parseEntries es = some ids) (hk : k ∈ ids)
    (hub : ∀ x ∈ ids, x ≤ k) :
    allocRunDir es = .ok (k + 1, es ++ [.num (k + 1)]) ∧
    allocRunDir [] = .ok (0, [.num 0]) := by
  constructor
  · simp only [allocRunDir, hp]
    rw [nextRunId_eq hk hub]
  · rfl

/-- C3 witness: a parent with children `{0, 1, 2}` gets subdirectory `3`;
an empty parent gets subdirectory `0`. -/
theorem alloc_next_id_witness :
    allocRunDir [.num 0, .num 1, .num 2]
      = .ok (3, [.num 0, .num 1, .num 2, .num 3]) ∧
    allocRunDir [] = .ok (0, [.num 0]) :=
  alloc_next_id [.num 0, .num 1, .num 2] [0, 1, 2] 2 rfl (by decide)
    (by decide)

/-- C8: whenever the parent directory contains an entry whose name does not
parse as an integer, the run-directory allocator fails with the
invalid-state error before creating any subdirectory, and the error
propagates uncaught through both `train` and `test`. -/
theorem alloc_invalid_entry (es : List EntryName) (s : String)
    (hmem : EntryName.other s ∈ es) :
    allocRunDir es = .error .invalidState ∧
    (∀ lg m k ds, trainFull es lg m k ds = .error .invalidState) ∧
    (∀ m bs, testFull es m bs = .error .invalidState) := by
  have hp := parseEntries_none hmem
  refine ⟨?_, ?_, ?_⟩
  · simp only [allocRunDir, hp]
  · intro lg m k ds
    simp only [trainFull, allocRunDir, hp]
  · intro m bs
    simp only [testFull, allocRunDir, hp]

/-- C8 witness: one stray non-integer entry makes a concrete `test` run
fail with the invalid-state error. -/
theorem alloc_invalid_entry_witness :
    testFull [.num 0, .other ("stray.txt")] 0 [] = .error .invalidState :=
  (alloc_invalid_entry [.num 0, .other ("stray.txt")] "stray.txt"
    (by decide)).2.2 0 []

/-- C5: when predictions have one more axis than labels (a rank-2 class
matrix against rank-1 labels), `accuracy.calc` reduces predictions by
arg-max along the class axis and returns the number of elementwise-equal
entries divided by the product of all label-tensor dimension sizes; in
particular for predictions `[[0.1, 0.9], [0.8, 0.2]]` and labels `[1, 0]`
it returns 1.0. -/
theorem accuracy_calc_spec :
    (∀ (p : List (List ℚ)) (l : List ℚ), (∀ r ∈ p, r ≠ []) →
      p.length = l.length →
      pyAccuracyCalc (.mat p) (.vec l) =
        some (((List.range l.length).countP
            (fun i => ((argmaxIdx (p.getD i []) : ℤ) : ℚ) == l.getD i 0) : ℚ) /
          (tensorNumel (.vec l) : ℚ))) ∧
    pyAccuracyCalc (.mat [[1/10, 9/10], [8/10, 2/10]]) (.vec [1, 0])
      = some 1 := by
  constructor
  · intro p l hne hlen
    have hany : p.any (fun r => r.isEmpty) = false := by
      rw [List.any_eq_false]
      intro r hr
      simpa [List.isEmpty_iff] using hne r hr
    rw [pyAccuracyCalc]
    simp only [hany, Bool.false_eq_true, if_false, hlen, if_pos, if_true]
    have hmaplen : (p.map (fun r => ((argmaxIdx r : ℤ) : ℚ))).length = l.length := by
      simpa using hlen
    rw [countEq_eq_range_countP _ _ hmaplen]
    congr 2
    congr 1
    apply List.countP_congr
    intro i hi
    have hip : i < p.length := by
      rw [hlen]
      exact List.mem_range.mp hi
    rw [getD_map_lt _ _ _ [] _ hip]
  · norm_num [pyAccuracyCalc, argmaxIdx, argmaxAux, countEq, tensorNumel,
      List.countP, List.countP.go]

/-- C5 witness: the general formula applied to the concrete predictions
and labels of the spec's example. -/
theorem accuracy_calc_spec_witness :
    pyAccuracyCalc (.mat [[1/10, 9/10], [8/10, 2/10]]) (.vec [1, 0]) =
      some (((List.range ([1, 0] : List ℚ).length).countP
          (fun i => ((argmaxIdx
            (([[1/10, 9/10], [8/10, 2/10]] : List (List ℚ)).getD i []) : ℤ) : ℚ)
              == ([1, 0] : List ℚ).getD i 0) : ℚ) /
        (tensorNumel (.vec [1, 0]) : ℚ)) :=
  accuracy_calc_spec.1 [[1/10, 9/10], [8/10, 2/10]] [1, 0]
    (by decide) (by decide)

end OpenNN

